import Mathlib

/-!
Verification of the Kosk (knowledge-of-secret-key) BLS protocol layer
(`bgls/blsKosk.go`) against its specification.

The protocol layer sits above an external curve system (hash-to-curve,
pairing checks, point arithmetic, point encoding).  Those primitives are
not part of the file under verification, so they are modelled from the
spec in the standard idealized "exponent" model of a prime-order pairing
group: a point `a · g` of either group is represented by its exponent
`a : ℤ`, group addition is integer addition, scalar multiplication is
integer multiplication, and the pairing equation
`e(sig, g2) = e(H(m), pk)` collapses to `sig = pk * H(m)` on exponents.
Byte strings are lists of naturals.
-/

/-- Byte strings, modelled as lists of naturals. -/
abbrev Bytes := List Nat

/-- Modelled from the spec: a `Point` is an opaque element of the signature
or key group.  In the exponent model a point is represented by its discrete
logarithm, an integer. -/
abbrev Point := Int

/-- Modelled from the spec: the `CurveSystem` capability consumed by the
protocol layer.  Only the default hash-to-curve function is state the layer
reads from it; the remaining primitives are modelled as the standalone
functions below, mirroring how the Go code imports them. -/
structure CurveSystem where
  HashToG1 : Bytes → Point

/-- Modelled from the spec: `Marshal(Point) -> bytes` is the canonical
(injective) byte encoding of a point, used to build authentication
messages.  Missing from src: defined in the external curves package. -/
def Marshal (p : Point) : Bytes :=
  [if p < 0 then 1 else 0, p.natAbs]

/-- Modelled from the spec: `LoadPublicKey(secretKey) -> Point` derives the
public key `sk · g2` from the secret key; in the exponent model that point
is represented by the exponent `sk` itself.  Missing from src: defined in
the external curves package. -/
def LoadPublicKey (_curve : CurveSystem) (sk : Int) : Point :=
  sk

/-- Modelled from the spec: `Sign(secretKey, message, hashFn) -> Point` is
the BLS hash-then-sign primitive `sk · H(m)`.  Missing from src: defined in
the sibling bls file of the repository. -/
def SignCustHash (sk : Int) (msg : Bytes) (hash : Bytes → Point) : Point :=
  sk * hash msg

/-- Modelled from the spec: single-signature pairing check
`e(sig, g2) == e(H(m), pk)` with the curve's default hash-to-curve, which
in the exponent model is `sig = pk * H(m)`.  Missing from src: defined in
the sibling bls file of the repository. -/
def VerifySingleSignature (curve : CurveSystem) (sig pubKey : Point) (msg : Bytes) : Bool :=
  sig == pubKey * curve.HashToG1 msg

/-- Modelled from the spec: single-signature pairing check with a
caller-supplied hash-to-curve function.  Missing from src: defined in the
sibling bls file of the repository. -/
def VerifySingleSignatureCustHash (_curve : CurveSystem) (sig pubKey : Point) (msg : Bytes)
    (hash : Bytes → Point) : Bool :=
  sig == pubKey * hash msg

/-- Modelled from the spec: the curve system's multi-signature pairing
check `e(aggsig, g2) == Σ e(H(m), key_i)`, i.e. on exponents
`aggsig = (Σ key_i) * H(m)`.  Missing from src: defined in the sibling bls
file of the repository. -/
def verifyMultiSignature (curve : CurveSystem) (aggsig : Point) (keys : List Point)
    (msg : Bytes) : Bool :=
  aggsig == (keys.foldl (· + ·) 0) * curve.HashToG1 msg

/-- Modelled from the spec: the curve system's aggregate-signature pairing
check `e(aggsig, g2) == Σ e(H(m_i), key_i)`, failing closed when the two
parallel arrays have mismatched lengths.  The final flag allows duplicate
messages; the Kosk caller always passes `true`, so the duplicate check it
would guard is irrelevant here and not modelled further.  Missing from
src: defined in the sibling bls file of the repository. -/
def verifyAggSig (curve : CurveSystem) (aggsig : Point) (keys : List Point)
    (msgs : List Bytes) (_allowDuplicates : Bool) : Bool :=
  if keys.length != msgs.length then
    false
  else
    aggsig == (keys.zip msgs).foldl (fun acc km => acc + km.1 * curve.HashToG1 km.2) 0

/-- Modelled from the spec: `AggregateSignatures(points) -> Point`, the
group sum of a list of signature points.  Missing from src: defined in the
sibling bls file of the repository. -/
def AggregateSignatures (sigs : List Point) : Point :=
  sigs.foldl (· + ·) 0

/-- Modelled from the spec: `AggregateKeys(points) -> Point`, the group sum
of a list of key points.  Missing from src: defined in the sibling bls file
of the repository. -/
def AggregateKeys (keys : List Point) : Point :=
  keys.foldl (· + ·) 0

/-- Modelled from the spec: `ScalePoints(points, scalars) -> []Point`,
per-point scalar multiplication.  Missing from src: defined in the external
curves package. -/
def ScalePoints (points : List Point) (factors : List Int) : List Point :=
  (points.zip factors).map (fun pf => pf.2 * pf.1)

/-! ## The protocol layer, translated from `src/bgls/blsKosk.go` -/

/-- `AuthenticateCustHash` (blsKosk.go:51-55): signs the marshalled public
key of `sk`.  The Go source computes `msg = append(make([]byte, 0), msg...)`,
i.e. it copies the marshalled key after an empty prefix; this is embedded
literally as `List.replicate 0 0 ++ msg`. -/
def AuthenticateCustHash (curve : CurveSystem) (sk : Int) (hash : Bytes → Point) : Point :=
  SignCustHash sk (List.replicate 0 0 ++ Marshal (LoadPublicKey curve sk)) hash

/-- `Authenticate` (blsKosk.go:44-46): authentication with the curve's
default hash-to-curve function. -/
def Authenticate (curve : CurveSystem) (sk : Int) : Point :=
  AuthenticateCustHash curve sk curve.HashToG1

/-- `CheckAuthenticationCustHash` (blsKosk.go:65-69): rebuilds the message
from the public key (again via `append(make([]byte, 0), msg...)`) and
delegates to the plain single-signature verifier with the supplied hash. -/
def CheckAuthenticationCustHash (curve : CurveSystem) (pubkey authentication : Point)
    (hash : Bytes → Point) : Bool :=
  VerifySingleSignatureCustHash curve authentication pubkey
    (List.replicate 0 0 ++ Marshal pubkey) hash

/-- `CheckAuthentication` (blsKosk.go:59-61). -/
def CheckAuthentication (curve : CurveSystem) (pubkey authentication : Point) : Bool :=
  CheckAuthenticationCustHash curve pubkey authentication curve.HashToG1

/-- `KoskSignCustHash` (blsKosk.go:80-83): prepends the 0x01 domain byte
and signs. -/
def KoskSignCustHash (curve : CurveSystem) (sk : Int) (msg : Bytes)
    (hash : Bytes → Point) : Point :=
  SignCustHash sk (1 :: msg) hash

/-- `KoskSign` (blsKosk.go:73-75). -/
def KoskSign (curve : CurveSystem) (sk : Int) (msg : Bytes) : Point :=
  KoskSignCustHash curve sk msg curve.HashToG1

/-- `KoskVerifySingleSignatureCustHash` (blsKosk.go:92-96): prepends the
0x01 domain byte; the Go body then calls `VerifySingleSignature`, the
default-hash verifier, leaving the `hash` parameter unused — embedded
literally. -/
def KoskVerifySingleSignatureCustHash (curve : CurveSystem) (pubKey : Point) (msg : Bytes)
    (sig : Point) (_hash : Bytes → Point) : Bool :=
  VerifySingleSignature curve sig pubKey (1 :: msg)

/-- `KoskVerifySingleSignature` (blsKosk.go:86-88). -/
def KoskVerifySingleSignature (curve : CurveSystem) (sig pubKey : Point) (msg : Bytes) : Bool :=
  KoskVerifySingleSignatureCustHash curve pubKey msg sig curve.HashToG1

/-- `KoskVerifyAggregateSignature` (blsKosk.go:100-106): tags each message
with the 0x01 domain byte and delegates to the aggregate pairing check
with duplicates allowed. -/
def KoskVerifyAggregateSignature (curve : CurveSystem) (aggsig : Point) (keys : List Point)
    (msgs : List Bytes) : Bool :=
  verifyAggSig curve aggsig keys (msgs.map (fun m => 1 :: m)) true

/-- `KoskVerifyMultiSignature` (blsKosk.go:117-120): tags the common
message once and delegates to the multi-signature pairing check. -/
def KoskVerifyMultiSignature (curve : CurveSystem) (aggsig : Point) (keys : List Point)
    (msg : Bytes) : Bool :=
  verifyMultiSignature curve aggsig keys (1 :: msg)

/-- The `MultiSig` bundle.  Modelled from the spec: `{ signature, set of
public keys, message }`; the struct itself is declared in a sibling file of
the repository, its fields are read here by `MultiSig.Verify`. -/
structure MultiSig where
  sig : Point
  keys : List Point
  msg : Bytes

/-- `MultiSig.Verify` (blsKosk.go:110-112): delegates to
`KoskVerifyMultiSignature` on the bundle's own fields. -/
def MultiSig.Verify (m : MultiSig) (curve : CurveSystem) : Bool :=
  KoskVerifyMultiSignature curve m.sig m.keys m.msg

/-- `KoskVerifyBatchMultiSignature` (blsKosk.go:126-133): sums all
aggregate signatures, sums each entry's key set into one effective key, and
delegates to `KoskVerifyAggregateSignature`. -/
def KoskVerifyBatchMultiSignature (curve : CurveSystem) (aggsigs : List Point)
    (pubkeys : List (List Point)) (msgs : List Bytes) : Bool :=
  KoskVerifyAggregateSignature curve (AggregateSignatures aggsigs)
    (pubkeys.map AggregateKeys) msgs

/-- `KoskVerifyMultiSignatureWithMultiplicity` (blsKosk.go:137-150): `nil`
multiplicity (modelled as `none`) delegates directly; otherwise the key and
multiplicity arrays must have equal length, each key is scaled by its
multiplicity, and the scaled keys go through the plain multi-signature
path. -/
def KoskVerifyMultiSignatureWithMultiplicity (curve : CurveSystem) (aggsig : Point)
    (keys : List Point) (multiplicity : Option (List Int)) (msg : Bytes) : Bool :=
  match multiplicity with
  | none => KoskVerifyMultiSignature curve aggsig keys msg
  | some mult =>
    if keys.length != mult.length then
      false
    else
      KoskVerifyMultiSignature curve aggsig (ScalePoints keys mult) msg

/-! ## Helper definitions for the batch-verification analysis -/

/-- The right-hand side of the batched pairing equation: the sum over the
batch entries of (effective key of the entry) times the hash of the
entry's tagged message. -/
def batchRHS (curve : CurveSystem) : List (List Point) → List Bytes → Point
  | k :: ks, m :: ms =>
      AggregateKeys k * curve.HashToG1 (1 :: m) + batchRHS curve ks ms
  | _, _ => 0

/-- All entries of a batch verify individually through
`KoskVerifyMultiSignature`; `false` when the three lists do not have equal
lengths. -/
def allIndividual (curve : CurveSystem) : List Point → List (List Point) → List Bytes → Bool
  | [], [], [] => true
  | a :: as, k :: ks, m :: ms =>
      KoskVerifyMultiSignature curve a k m && allIndividual curve as ks ms
  | _, _, _ => false

/-! ## A concrete idealized curve instance, used for witnesses -/

/-- An injective encoding of byte strings into the naturals, built from
`Nat.pair`; used to realize an idealized (collision-free) hash-to-curve. -/
def encodeBytes : Bytes → Nat
  | [] => 0
  | b :: t => Nat.pair b (encodeBytes t) + 1

/-- The idealized default hash-to-curve function: an injective map from
byte strings to exponents. -/
def hashIdeal (l : Bytes) : Point :=
  Int.ofNat (encodeBytes l)

/-- A concrete curve system whose default hash-to-curve is the idealized
injective hash. -/
def idealCurve : CurveSystem :=
  ⟨hashIdeal⟩

theorem encodeBytes_injective : Function.Injective encodeBytes := by
  intro l1
  induction l1 with
  | nil =>
    intro l2 h
    cases l2 with
    | nil => rfl
    | cons b t => simp [encodeBytes] at h
  | cons a t ih =>
    intro l2 h
    cases l2 with
    | nil => simp [encodeBytes] at h
    | cons b t2 =>
      simp only [encodeBytes, Nat.add_right_cancel_iff] at h
      have h2 := Nat.pair_eq_pair.mp h
      rw [h2.1, ih h2.2]

theorem hashIdeal_injective : Function.Injective hashIdeal := by
  intro l1 l2 h
  exact encodeBytes_injective (Int.ofNat.inj h)

/-! ## Helper lemmas about the aggregation sums -/

theorem foldl_add_shift (l : List Int) (x : Int) :
    l.foldl (· + ·) x = x + l.foldl (· + ·) 0 := by
  induction l generalizing x with
  | nil => simp
  | cons a t ih =>
    simp only [List.foldl_cons]
    rw [ih (x + a), ih (0 + a)]
    ring

theorem aggregateSignatures_cons (a : Point) (l : List Point) :
    AggregateSignatures (a :: l) = a + AggregateSignatures l := by
  simp only [AggregateSignatures, List.foldl_cons]
  rw [foldl_add_shift l (0 + a)]
  ring

theorem aggregateSignatures_append (l1 l2 : List Point) :
    AggregateSignatures (l1 ++ l2) = AggregateSignatures l1 + AggregateSignatures l2 := by
  induction l1 with
  | nil => simp [AggregateSignatures]
  | cons a t ih =>
    rw [List.cons_append, aggregateSignatures_cons, aggregateSignatures_cons, ih]
    ring

theorem aggregateSignatures_replicate (m : Nat) (x : Point) :
    AggregateSignatures (List.replicate m x) = (m : Int) * x := by
  induction m with
  | zero => simp [AggregateSignatures]
  | succ n ih =>
    rw [List.replicate_succ, aggregateSignatures_cons, ih]
    push_cast
    ring

/-- The batched pairing equation's fold, with an explicit accumulator,
equals the accumulator plus `batchRHS`. -/
theorem batch_fold_eq (curve : CurveSystem) (ks : List (List Point)) (ms : List Bytes)
    (c : Point) :
    ((ks.map AggregateKeys).zip (ms.map (fun m => 1 :: m))).foldl
        (fun acc km => acc + km.1 * curve.HashToG1 km.2) c
      = c + batchRHS curve ks ms := by
  induction ks generalizing ms c with
  | nil => simp [batchRHS]
  | cons k kt ih =>
    cases ms with
    | nil => simp [batchRHS]
    | cons m mt =>
      simp only [List.map_cons, List.zip_cons_cons, List.foldl_cons]
      rw [ih mt (c + AggregateKeys k * curve.HashToG1 (1 :: m))]
      simp only [batchRHS]
      ring

/-- Characterization of the batch verifier: when the key-set and message
lists have equal lengths, it accepts exactly when the summed signature
equals the batched right-hand side. -/
theorem batch_iff_sum_eq (curve : CurveSystem) (as : List Point) (ks : List (List Point))
    (ms : List Bytes) (hlen : ks.length = ms.length) :
    (KoskVerifyBatchMultiSignature curve as ks ms = true
      ↔ AggregateSignatures as = batchRHS curve ks ms) := by
  simp only [KoskVerifyBatchMultiSignature, KoskVerifyAggregateSignature, verifyAggSig,
    List.length_map, hlen, bne_self_eq_false, Bool.false_eq_true, if_false]
  rw [batch_fold_eq curve ks ms 0]
  simp [beq_iff_eq]

/-- `allIndividual` forces the three lists to have equal lengths. -/
theorem allIndividual_length (curve : CurveSystem) :
    ∀ (as : List Point) (ks : List (List Point)) (ms : List Bytes),
      allIndividual curve as ks ms = true →
      as.length = ks.length ∧ ks.length = ms.length := by
  intro as
  induction as with
  | nil =>
    intro ks ms h
    cases ks with
    | nil =>
      cases ms with
      | nil => simp
      | cons m mt => simp [allIndividual] at h
    | cons k kt => simp [allIndividual] at h
  | cons a at_ ih =>
    intro ks ms h
    cases ks with
    | nil => simp [allIndividual] at h
    | cons k kt =>
      cases ms with
      | nil => simp [allIndividual] at h
      | cons m mt =>
        simp only [allIndividual, Bool.and_eq_true] at h
        have := ih kt mt h.2
        simp [this.1, this.2]

/-- When every entry verifies individually, the summed signature equals
the batched right-hand side. -/
theorem allIndividual_sum (curve : CurveSystem) :
    ∀ (as : List Point) (ks : List (List Point)) (ms : List Bytes),
      allIndividual curve as ks ms = true →
      AggregateSignatures as = batchRHS curve ks ms := by
  intro as
  induction as with
  | nil =>
    intro ks ms h
    cases ks with
    | nil =>
      cases ms with
      | nil => simp [AggregateSignatures, batchRHS]
      | cons m mt => simp [allIndividual] at h
    | cons k kt => simp [allIndividual] at h
  | cons a at_ ih =>
    intro ks ms h
    cases ks with
    | nil => simp [allIndividual] at h
    | cons k kt =>
      cases ms with
      | nil => simp [allIndividual] at h
      | cons m mt =>
        simp only [allIndividual, Bool.and_eq_true] at h
        have h1 : a = AggregateKeys k * curve.HashToG1 (1 :: m) := by
          have := h.1
          simp only [KoskVerifyMultiSignature, verifyMultiSignature, beq_iff_eq] at this
          exact this
        rw [aggregateSignatures_cons]
        simp only [batchRHS]
        rw [h1, ih kt mt h.2]

/-- Splitting `batchRHS` across an append of equal-length prefixes. -/
theorem batchRHS_append (curve : CurveSystem) :
    ∀ (k1 : List (List Point)) (m1 : List Bytes) (k2 : List (List Point)) (m2 : List Bytes),
      k1.length = m1.length →
      batchRHS curve (k1 ++ k2) (m1 ++ m2)
        = batchRHS curve k1 m1 + batchRHS curve k2 m2 := by
  intro k1
  induction k1 with
  | nil =>
    intro m1 k2 m2 hlen
    cases m1 with
    | nil => simp [batchRHS]
    | cons m mt => simp at hlen
  | cons k kt ih =>
    intro m1 k2 m2 hlen
    cases m1 with
    | nil => simp at hlen
    | cons m mt =>
      simp only [List.cons_append, batchRHS, List.append_eq]
      rw [ih mt k2 m2 (by simpa using hlen)]
      ring

/-! ## Claim theorems -/

/-- C7: for every secret key `sk`,
`CheckAuthentication(pubkey(sk), Authenticate(sk))` returns `true`
(authenticate/check round-trip). -/
theorem check_authentication_roundtrip (curve : CurveSystem) (sk : Int) :
    CheckAuthentication curve (LoadPublicKey curve sk) (Authenticate curve sk) = true := by
  simp [CheckAuthentication, CheckAuthenticationCustHash, Authenticate, AuthenticateCustHash,
    VerifySingleSignatureCustHash, SignCustHash, LoadPublicKey]

/-- C8: for every secret key `sk` and message `msg`,
`KoskVerifySingleSignature(pubkey(sk), msg, KoskSign(sk, msg))` returns
`true` (sign/verify round-trip in the application domain). -/
theorem kosk_sign_verify_roundtrip (curve : CurveSystem) (sk : Int) (msg : Bytes) :
    KoskVerifySingleSignature curve (KoskSign curve sk msg) (LoadPublicKey curve sk) msg
      = true := by
  simp [KoskVerifySingleSignature, KoskVerifySingleSignatureCustHash, VerifySingleSignature,
    KoskSign, KoskSignCustHash, SignCustHash, LoadPublicKey]

/-- C10: `MultiSig.Verify` is exactly `KoskVerifyMultiSignature` applied to
the bundle's own `sig`, `keys` and `msg` fields, adding no extra checks. -/
theorem multisig_verify_delegates (curve : CurveSystem) (m : MultiSig) :
    MultiSig.Verify m curve = KoskVerifyMultiSignature curve m.sig m.keys m.msg :=
  rfl

/-- C9: `KoskVerifyAggregateSignature` returns `false` whenever the key and
message arrays have mismatched lengths, and
`KoskVerifyMultiSignatureWithMultiplicity` with a present multiplicity
array returns `false` whenever the key and multiplicity arrays have
mismatched lengths.  Both are total functions, so no error or panic is
possible. -/
theorem length_mismatch_fails_closed :
    (∀ (curve : CurveSystem) (aggsig : Point) (keys : List Point) (msgs : List Bytes),
      keys.length ≠ msgs.length →
      KoskVerifyAggregateSignature curve aggsig keys msgs = false)
    ∧ (∀ (curve : CurveSystem) (aggsig : Point) (keys : List Point) (mult : List Int)
        (msg : Bytes),
      keys.length ≠ mult.length →
      KoskVerifyMultiSignatureWithMultiplicity curve aggsig keys (some mult) msg = false) := by
  constructor
  · intro curve aggsig keys msgs h
    simp only [KoskVerifyAggregateSignature, verifyAggSig, List.length_map]
    rw [if_pos (bne_iff_ne.mpr h)]
  · intro curve aggsig keys mult msg h
    simp only [KoskVerifyMultiSignatureWithMultiplicity]
    rw [if_pos (bne_iff_ne.mpr h)]

/-- Witness for C9: at concrete mismatched inputs both verifiers return
`false`. -/
theorem length_mismatch_fails_closed_witness :
    (([] : List Point).length ≠ ([[]] : List Bytes).length
      ∧ KoskVerifyAggregateSignature idealCurve 0 [] [[]] = false)
    ∧ (([] : List Point).length ≠ ([0] : List Int).length
      ∧ KoskVerifyMultiSignatureWithMultiplicity idealCurve 0 [] (some [0]) [] = false) :=
  ⟨⟨by decide, length_mismatch_fails_closed.1 idealCurve 0 [] [[]] (by decide)⟩,
   ⟨by decide, length_mismatch_fails_closed.2 idealCurve 0 [] [0] [] (by decide)⟩⟩

/-- C1: the claim says the authentication message is
`0x00 || pubkey.Marshal()`.  The code instead computes
`append(make([]byte, 0), msg...)`, an identity copy, so the message
actually signed and re-verified is the bare `pubkey.Marshal()` with no
domain byte — contradicting the code's own doc comments ("with a null byte
prepended") and the file-header design note.  This theorem evaluates the
code: for all inputs the authentication equals a signature on the bare
marshalled key, and at `sk = 1` that message differs from the 0x00-tagged
one and so does the resulting signature. -/
theorem authenticate_signs_unprefixed_marshal :
    (∀ (curve : CurveSystem) (sk : Int) (hash : Bytes → Point),
      AuthenticateCustHash curve sk hash
        = SignCustHash sk (Marshal (LoadPublicKey curve sk)) hash)
    ∧ (List.replicate 0 0 ++ Marshal (LoadPublicKey idealCurve 1)
        ≠ 0 :: Marshal (LoadPublicKey idealCurve 1))
    ∧ Authenticate idealCurve 1
        = SignCustHash 1 (Marshal (LoadPublicKey idealCurve 1)) idealCurve.HashToG1
    ∧ Authenticate idealCurve 1
        ≠ SignCustHash 1 (0 :: Marshal (LoadPublicKey idealCurve 1)) idealCurve.HashToG1 :=
  ⟨fun _ _ _ => rfl, by decide, by decide, by decide⟩

/-- C2: the claim says `KoskVerifySingleSignatureCustHash` verifies with
the supplied hash function.  The code body calls the default-hash
`VerifySingleSignature` and never uses its `hash` parameter, contradicting
its own doc comment ("with the supplied hash function").  This theorem
evaluates the code: the result is invariant under the supplied hash, and a
signature produced and valid under a custom hash is rejected. -/
theorem kosk_verify_custhash_ignores_supplied_hash :
    (∀ (curve : CurveSystem) (pubKey : Point) (msg : Bytes) (sig : Point)
        (h1 h2 : Bytes → Point),
      KoskVerifySingleSignatureCustHash curve pubKey msg sig h1
        = KoskVerifySingleSignatureCustHash curve pubKey msg sig h2)
    ∧ VerifySingleSignatureCustHash idealCurve
        (KoskSignCustHash idealCurve 1 [] (fun _ => 5)) 1 [1] (fun _ => 5) = true
    ∧ KoskVerifySingleSignatureCustHash idealCurve 1 []
        (KoskSignCustHash idealCurve 1 [] (fun _ => 5)) (fun _ => 5) = false :=
  ⟨fun _ _ _ _ _ _ => rfl, by decide, by decide⟩

/-- Counterexample to C3: a batch whose `aggsigs` list is longer than its
`pubkeySets` and `msgs` lists (lengths 2, 1, 1) is accepted, because the
code sums all aggregate signatures without ever comparing `len(aggsigs)`
to the other lengths. -/
theorem batch_aggsig_length_mismatch_accepted :
    ([3, 0] : List Point).length ≠ ([[1]] : List (List Point)).length
    ∧ KoskVerifyBatchMultiSignature idealCurve [3, 0] [[1]] [[]] = true := by
  constructor
  · decide
  · decide

/-- C3 as amended: the batch verifier returns `false` whenever
`len(pubkeySets) ≠ len(msgs)`; the length of `aggsigs` is never checked,
since the aggregate signatures are summed immediately. -/
theorem batch_rejects_keyset_msg_length_mismatch (curve : CurveSystem)
    (aggsigs : List Point) (pubkeySets : List (List Point)) (msgs : List Bytes)
    (h : pubkeySets.length ≠ msgs.length) :
    KoskVerifyBatchMultiSignature curve aggsigs pubkeySets msgs = false := by
  simp only [KoskVerifyBatchMultiSignature, KoskVerifyAggregateSignature, verifyAggSig,
    List.length_map]
  rw [if_pos (bne_iff_ne.mpr h)]

/-- Witness for the amended C3: a concrete key-set/message length mismatch
is rejected. -/
theorem batch_rejects_keyset_msg_length_mismatch_witness :
    ([] : List (List Point)).length ≠ ([[]] : List Bytes).length
    ∧ KoskVerifyBatchMultiSignature idealCurve [] [] [[]] = false :=
  ⟨by decide, batch_rejects_keyset_msg_length_mismatch idealCurve [] [] [[]] (by decide)⟩

/-- C4: for a nonzero secret key and a collision-free default
hash-to-curve, the authentication on `pubkey(sk)` neither equals nor
verifies as a `KoskSign` signature on the byte string
`pubkey(sk).Marshal()`, and conversely a `KoskSign` signature on that byte
string fails `CheckAuthentication`: cross-domain signature reuse fails
verification.  (In the code the two domains differ because `KoskSign`
prepends the 0x01 byte while authentication signs the bare marshalled
key, so the two messages always differ in length.) -/
theorem kosk_domain_separation (curve : CurveSystem) (sk : Int)
    (hinj : Function.Injective curve.HashToG1) (hsk : sk ≠ 0) :
    Authenticate curve sk ≠ KoskSign curve sk (Marshal (LoadPublicKey curve sk))
    ∧ KoskVerifySingleSignature curve (Authenticate curve sk) (LoadPublicKey curve sk)
        (Marshal (LoadPublicKey curve sk)) = false
    ∧ CheckAuthentication curve (LoadPublicKey curve sk)
        (KoskSign curve sk (Marshal (LoadPublicKey curve sk))) = false := by
  have hm : Marshal (LoadPublicKey curve sk) ≠ 1 :: Marshal (LoadPublicKey curve sk) :=
    (List.cons_ne_self 1 (Marshal (LoadPublicKey curve sk))).symm
  have hhash : curve.HashToG1 (Marshal (LoadPublicKey curve sk))
      ≠ curve.HashToG1 (1 :: Marshal (LoadPublicKey curve sk)) :=
    fun h => hm (hinj h)
  have hne : sk * curve.HashToG1 (Marshal (LoadPublicKey curve sk))
      ≠ sk * curve.HashToG1 (1 :: Marshal (LoadPublicKey curve sk)) :=
    fun h => hhash (mul_left_cancel₀ hsk h)
  refine ⟨?_, ?_, ?_⟩
  · simpa [Authenticate, AuthenticateCustHash, KoskSign, KoskSignCustHash, SignCustHash]
      using hne
  · simp only [KoskVerifySingleSignature, KoskVerifySingleSignatureCustHash,
      VerifySingleSignature, Authenticate, AuthenticateCustHash, SignCustHash,
      List.replicate, List.nil_append, LoadPublicKey]
    exact beq_eq_false_iff_ne.mpr hne
  · simp only [CheckAuthentication, CheckAuthenticationCustHash,
      VerifySingleSignatureCustHash, KoskSign, KoskSignCustHash, SignCustHash,
      List.replicate, List.nil_append, LoadPublicKey]
    exact beq_eq_false_iff_ne.mpr (Ne.symm hne)

/-- Witness for C4 at the idealized curve and `sk = 1`. -/
theorem kosk_domain_separation_witness :
    (Function.Injective idealCurve.HashToG1 ∧ (1 : Int) ≠ 0)
    ∧ (Authenticate idealCurve 1
         ≠ KoskSign idealCurve 1 (Marshal (LoadPublicKey idealCurve 1))
       ∧ KoskVerifySingleSignature idealCurve (Authenticate idealCurve 1)
           (LoadPublicKey idealCurve 1) (Marshal (LoadPublicKey idealCurve 1)) = false
       ∧ CheckAuthentication idealCurve (LoadPublicKey idealCurve 1)
           (KoskSign idealCurve 1 (Marshal (LoadPublicKey idealCurve 1))) = false) :=
  ⟨⟨hashIdeal_injective, by decide⟩,
   kosk_domain_separation idealCurve 1 hashIdeal_injective (by decide)⟩

/-- Counterexample to C5: a batch of two entries, each of which fails
individual `KoskVerifyMultiSignature` verification, is nevertheless
accepted by `KoskVerifyBatchMultiSignature` (the two entries' aggregate
signatures were swapped, and the summed pairing equation cannot see the
swap), so batch acceptance is not equivalent to all entries verifying
individually. -/
theorem batch_accepts_two_failing_entries :
    ([4, 3] : List Point).length = 2 ∧ ([[1], [1]] : List (List Point)).length = 2
    ∧ ([[], [0]] : List Bytes).length = 2
    ∧ KoskVerifyBatchMultiSignature idealCurve [4, 3] [[1], [1]] [[], [0]] = true
    ∧ KoskVerifyMultiSignature idealCurve 4 [1] [] = false
    ∧ KoskVerifyMultiSignature idealCurve 3 [1] [0] = false :=
  ⟨by decide, by decide, by decide, by decide, by decide, by decide⟩

/-- C5 as amended: if every entry of the batch verifies individually then
the batch verifier accepts, and if exactly one entry fails individual
verification while all others pass then the batch verifier rejects; but
batch acceptance does NOT imply that every entry verifies individually —
errors in two or more entries can cancel in the summed pairing equation. -/
theorem batch_multi_signature_amended :
    (∀ (curve : CurveSystem) (as : List Point) (ks : List (List Point)) (ms : List Bytes),
      allIndividual curve as ks ms = true →
      KoskVerifyBatchMultiSignature curve as ks ms = true)
    ∧ (∀ (curve : CurveSystem) (pre suf : List Point) (kpre ksuf : List (List Point))
        (mpre msuf : List Bytes) (a : Point) (k : List Point) (m : Bytes),
      allIndividual curve pre kpre mpre = true →
      allIndividual curve suf ksuf msuf = true →
      KoskVerifyMultiSignature curve a k m = false →
      KoskVerifyBatchMultiSignature curve (pre ++ a :: suf) (kpre ++ k :: ksuf)
        (mpre ++ m :: msuf) = false) := by
  constructor
  · intro curve as ks ms h
    have hlen := (allIndividual_length curve as ks ms h).2
    exact (batch_iff_sum_eq curve as ks ms hlen).mpr (allIndividual_sum curve as ks ms h)
  · intro curve pre suf kpre ksuf mpre msuf a k m hpre hsuf hfail
    have hlpre := allIndividual_length curve pre kpre mpre hpre
    have hlsuf := allIndividual_length curve suf ksuf msuf hsuf
    have hlen : (kpre ++ k :: ksuf).length = (mpre ++ m :: msuf).length := by
      simp [List.length_append, hlpre.2, hlsuf.2]
    have hne : a ≠ AggregateKeys k * curve.HashToG1 (1 :: m) := by
      simpa [KoskVerifyMultiSignature, verifyMultiSignature, AggregateKeys] using hfail
    have hsum : AggregateSignatures (pre ++ a :: suf)
        ≠ batchRHS curve (kpre ++ k :: ksuf) (mpre ++ m :: msuf) := by
      rw [aggregateSignatures_append, aggregateSignatures_cons,
        batchRHS_append curve kpre mpre (k :: ksuf) (m :: msuf) hlpre.2,
        allIndividual_sum curve pre kpre mpre hpre,
        allIndividual_sum curve suf ksuf msuf hsuf]
      simp only [batchRHS]
      intro heq
      apply hne
      linarith
    cases hB : KoskVerifyBatchMultiSignature curve (pre ++ a :: suf) (kpre ++ k :: ksuf)
        (mpre ++ m :: msuf) with
    | false => rfl
    | true =>
      exact absurd ((batch_iff_sum_eq curve _ _ _ hlen).mp hB) hsum

/-- Witness for the amended C5: a singleton batch with a valid entry is
accepted; a singleton batch whose only entry fails individually is
rejected. -/
theorem batch_multi_signature_amended_witness :
    (allIndividual idealCurve [3] [[1]] [[]] = true
      ∧ KoskVerifyBatchMultiSignature idealCurve [3] [[1]] [[]] = true)
    ∧ (allIndividual idealCurve [] [] [] = true
      ∧ KoskVerifyMultiSignature idealCurve 99 [1] [] = false
      ∧ KoskVerifyBatchMultiSignature idealCurve ([] ++ 99 :: []) ([] ++ [1] :: [])
          ([] ++ [] :: []) = false) :=
  ⟨⟨by decide, batch_multi_signature_amended.1 idealCurve [3] [[1]] [[]] (by decide)⟩,
   ⟨by decide, by decide,
    batch_multi_signature_amended.2 idealCurve [] [] [] [] [] [] 99 [1] []
      (by decide) (by decide) (by decide)⟩⟩

/-- C6: for an aggregate in which one signer's Kosk signature was summed
`m` times (nonzero secret key, nonvanishing hash of the tagged message),
verifying with `multiplicity = [m]` and the unscaled key gives the same
result as verifying with `multiplicity = nil` and the key pre-scaled by
`m`; both accept the correctly `m`-fold-summed aggregate, and both reject
when the multiplicity is altered by one in either direction. -/
theorem kosk_multiplicity_equivalence (curve : CurveSystem) (sk : Int) (m : Nat)
    (msg : Bytes) (hsk : sk ≠ 0) (hh : curve.HashToG1 (1 :: msg) ≠ 0) :
    (KoskVerifyMultiSignatureWithMultiplicity curve
        (AggregateSignatures (List.replicate m (KoskSign curve sk msg)))
        [LoadPublicKey curve sk] (some [(m : Int)]) msg
      = KoskVerifyMultiSignatureWithMultiplicity curve
        (AggregateSignatures (List.replicate m (KoskSign curve sk msg)))
        [(m : Int) * LoadPublicKey curve sk] none msg)
    ∧ KoskVerifyMultiSignatureWithMultiplicity curve
        (AggregateSignatures (List.replicate m (KoskSign curve sk msg)))
        [LoadPublicKey curve sk] (some [(m : Int)]) msg = true
    ∧ ∀ m' : Int, (m' = (m : Int) + 1 ∨ m' = (m : Int) - 1) →
        KoskVerifyMultiSignatureWithMultiplicity curve
          (AggregateSignatures (List.replicate m (KoskSign curve sk msg)))
          [LoadPublicKey curve sk] (some [m']) msg = false
        ∧ KoskVerifyMultiSignatureWithMultiplicity curve
          (AggregateSignatures (List.replicate m (KoskSign curve sk msg)))
          [m' * LoadPublicKey curve sk] none msg = false := by
  have hagg : AggregateSignatures (List.replicate m (KoskSign curve sk msg))
      = (m : Int) * (sk * curve.HashToG1 (1 :: msg)) := by
    rw [aggregateSignatures_replicate]
    rfl
  have hx : sk * curve.HashToG1 (1 :: msg) ≠ 0 := mul_ne_zero hsk hh
  refine ⟨rfl, ?_, ?_⟩
  · simp only [KoskVerifyMultiSignatureWithMultiplicity, ScalePoints,
      KoskVerifyMultiSignature, verifyMultiSignature, LoadPublicKey, hagg]
    simp only [List.length_cons, List.length_nil, bne_self_eq_false, Bool.false_eq_true,
      if_false, List.zip_cons_cons, List.zip_nil_right, List.map_cons, List.map_nil,
      List.foldl_cons, List.foldl_nil, beq_iff_eq]
    ring
  · intro m' hm'
    have hm'ne : m' ≠ (m : Int) := by
      rcases hm' with h | h <;> omega
    have key : ∀ z : Point, z = m' * sk →
        (AggregateSignatures (List.replicate m (KoskSign curve sk msg))
          == List.foldl (· + ·) 0 [z] * curve.HashToG1 (1 :: msg)) = false := by
      intro z hz
      rw [beq_eq_false_iff_ne, hagg, hz]
      simp only [List.foldl_cons, List.foldl_nil, zero_add]
      intro heq
      apply hm'ne
      apply mul_right_cancel₀ hx
      rw [mul_assoc] at heq
      linarith
    constructor
    · simp only [KoskVerifyMultiSignatureWithMultiplicity, ScalePoints,
        KoskVerifyMultiSignature, verifyMultiSignature, LoadPublicKey]
      simp only [List.length_cons, List.length_nil, bne_self_eq_false, Bool.false_eq_true,
        if_false, List.zip_cons_cons, List.zip_nil_right, List.map_cons, List.map_nil]
      exact key (m' * sk) rfl
    · simp only [KoskVerifyMultiSignatureWithMultiplicity, KoskVerifyMultiSignature,
        verifyMultiSignature, LoadPublicKey]
      exact key (m' * sk) rfl

/-- Witness for C6 at the idealized curve, `sk = 1`, `m = 2`, empty
message. -/
theorem kosk_multiplicity_equivalence_witness :
    ((1 : Int) ≠ 0 ∧ idealCurve.HashToG1 (1 :: []) ≠ 0)
    ∧ ((KoskVerifyMultiSignatureWithMultiplicity idealCurve
          (AggregateSignatures (List.replicate 2 (KoskSign idealCurve 1 [])))
          [LoadPublicKey idealCurve 1] (some [(2 : Int)]) []
        = KoskVerifyMultiSignatureWithMultiplicity idealCurve
          (AggregateSignatures (List.replicate 2 (KoskSign idealCurve 1 [])))
          [(2 : Int) * LoadPublicKey idealCurve 1] none [])
      ∧ KoskVerifyMultiSignatureWithMultiplicity idealCurve
          (AggregateSignatures (List.replicate 2 (KoskSign idealCurve 1 [])))
          [LoadPublicKey idealCurve 1] (some [(2 : Int)]) [] = true
      ∧ ∀ m' : Int, (m' = (2 : Int) + 1 ∨ m' = (2 : Int) - 1) →
          KoskVerifyMultiSignatureWithMultiplicity idealCurve
            (AggregateSignatures (List.replicate 2 (KoskSign idealCurve 1 [])))
            [LoadPublicKey idealCurve 1] (some [m']) [] = false
          ∧ KoskVerifyMultiSignatureWithMultiplicity idealCurve
            (AggregateSignatures (List.replicate 2 (KoskSign idealCurve 1 [])))
            [m' * LoadPublicKey idealCurve 1] none [] = false) :=
  ⟨⟨by decide, by decide⟩,
   kosk_multiplicity_equivalence idealCurve 1 2 [] (by decide) (by decide)⟩
